import Mathlib

/-!
Verification of the Question ⇄ External-Schema mapping layer of the
notion-survey-ai repository (a shallow embedding in Lean 4).

The definitions below are translated from the TypeScript sources:
* `types.ts` — the `QuestionType` enum and the `Question` / `FormMetadata`
  interfaces;
* `notionService.ts` — `questionToNotionProperty`,
  `createNotionSurveyDatabase` (schema creation), `submitNotionResponse`
  (response encoding) and `getNotionDatabaseSchema` (schema reversal);
* `SurveyResponse` / `FormGenerator` components — `sanitizePropertyName`
  and the response-key construction;
* `storageService.ts` — `getFormsMetadata` / `saveFormMetadata`;
* `emailHistoryService.ts` — `getEmailHistory`.

JavaScript objects are modelled as ordered association lists with
JavaScript insert-or-overwrite semantics (`objSet`); `Math.random` colour
draws are modelled as an explicit draw oracle passed as a parameter, and
`Date.now()` / `new Date().toISOString()` as explicit parameters, so every
definition stays a pure, executable function.
-/

namespace NotionSurvey

/-- `QuestionType` enum of `types.ts`. -/
inductive QuestionType where
  | TEXT
  | PARAGRAPH_TEXT
  | MULTIPLE_CHOICE
  | CHECKBOX
  | SCALE
  | DATE
  | TIME
  deriving DecidableEq, Repr

/-- `Question` interface of `types.ts` (`options?` is optional, hence `Option`). -/
structure Question where
  questionText : String
  type : QuestionType
  options : Option (List String) := none
  isRequired : Bool
  deriving DecidableEq, Repr

/-! ### Decimal rendering of a JavaScript non-negative integer

`propertyKey` embeds the template literal `` `Q${index + 1}: ...` ``; for a
non-negative integer JavaScript renders the standard decimal numeral.  We
define that rendering with explicit fuel (so it evaluates inside the
kernel) and verify it by a value round trip, which is what the injectivity
arguments below rest on. -/

/-- The decimal digit character for `d` (`0 ≤ d ≤ 9` in all uses). -/
def digitChar (d : Nat) : Char := Char.ofNat (48 + d)

/-- Digits of `n` in base 10, least significant first; `fuel ≥ n` suffices. -/
def revDigitsAux : Nat → Nat → List Char
  | 0, _ => []
  | _ + 1, 0 => []
  | fuel + 1, n + 1 => digitChar ((n + 1) % 10) :: revDigitsAux fuel ((n + 1) / 10)

/-- Digits of `n` in base 10, least significant first (empty for `0`). -/
def revDigits (n : Nat) : List Char := revDigitsAux n n

/-- Decimal rendering of a non-negative integer, as JavaScript prints it. -/
def natToString (n : Nat) : String :=
  if n = 0 then "0" else ⟨(revDigits n).reverse⟩

/-- Recover the value from a least-significant-first digit list. -/
def revVal : List Char → Nat
  | [] => 0
  | c :: cs => (c.toNat - 48) + 10 * revVal cs

lemma digitChar_toNat {d : Nat} (h : d < 10) : (digitChar d).toNat = 48 + d := by
  interval_cases d <;> decide

lemma revDigitsAux_val {fuel n : Nat} (h : n ≤ fuel) : revVal (revDigitsAux fuel n) = n := by
  induction fuel generalizing n with
  | zero =>
    cases Nat.le_zero.mp h
    simp [revDigitsAux, revVal]
  | succ fuel ih =>
    cases n with
    | zero => simp [revDigitsAux, revVal]
    | succ n =>
      have hlt : (n + 1) / 10 ≤ fuel := by
        have : (n + 1) / 10 < n + 1 := Nat.div_lt_self (Nat.succ_pos n) (by decide)
        omega
      have hmod : (n + 1) % 10 < 10 := Nat.mod_lt _ (by decide)
      simp only [revDigitsAux, revVal, ih hlt, digitChar_toNat hmod]
      omega

/-- The fueled digit computation is a genuine decimal rendering: reading the
digits back yields the value. -/
lemma revVal_revDigits (n : Nat) : revVal (revDigits n) = n :=
  revDigitsAux_val (Nat.le_refl n)

lemma revDigits_injective {m n : Nat} (h : revDigits m = revDigits n) : m = n := by
  have := revVal_revDigits m
  rw [h, revVal_revDigits] at this
  omega

/-- `c` is an ASCII decimal digit. -/
def isAsciiDigit (c : Char) : Bool := 48 ≤ c.toNat && c.toNat ≤ 57

lemma isAsciiDigit_digitChar {d : Nat} (h : d < 10) : isAsciiDigit (digitChar d) = true := by
  interval_cases d <;> decide

lemma revDigitsAux_digits {fuel n : Nat} {c : Char}
    (hc : c ∈ revDigitsAux fuel n) : isAsciiDigit c = true := by
  induction fuel generalizing n with
  | zero => simp [revDigitsAux] at hc
  | succ fuel ih =>
    cases n with
    | zero => simp [revDigitsAux] at hc
    | succ n =>
      simp only [revDigitsAux, List.mem_cons] at hc
      rcases hc with rfl | hc
      · exact isAsciiDigit_digitChar (Nat.mod_lt _ (by decide))
      · exact ih hc

lemma revDigits_digits {n : Nat} {c : Char} (hc : c ∈ revDigits n) : isAsciiDigit c = true :=
  revDigitsAux_digits hc

lemma revDigits_ne_nil {n : Nat} (h : n ≠ 0) : revDigits n ≠ [] := by
  intro hnil
  have := revVal_revDigits n
  rw [hnil] at this
  simp [revVal] at this
  omega

/-! ### Property-key construction

`createNotionSurveyDatabase` builds each question's property name as
`` `Q${index + 1}: ${question.questionText}` `` (no sanitisation), while the
response-submission components build
`` `Q${questionIndex + 1}: ${sanitizePropertyName(question.questionText)}` ``
with `sanitizePropertyName = name.replace(/,/g, ';')`. -/

/-- Schema-creation key, from `createNotionSurveyDatabase`:
`` `Q${index + 1}: ${question.questionText}` ``. -/
def propertyKey (index : Nat) (questionText : String) : String :=
  "Q" ++ natToString (index + 1) ++ ": " ++ questionText

/-- `sanitizePropertyName` of the survey-response components:
`name.replace(/,/g, ';')`. -/
def sanitizePropertyName (name : String) : String :=
  ⟨name.data.map (fun c => if c = ',' then ';' else c)⟩

/-- Response-submission key, from `handleInputChange` / `handleSubmit` in the
response components: `` `Q${i + 1}: ${sanitizePropertyName(q.questionText)}` ``. -/
def responseKey (index : Nat) (questionText : String) : String :=
  "Q" ++ natToString (index + 1) ++ ": " ++ sanitizePropertyName questionText

lemma propertyKey_data (index : Nat) (questionText : String) :
    (propertyKey index questionText).data =
      'Q' :: ((revDigits (index + 1)).reverse ++ ':' :: ' ' :: questionText.data) := by
  have hne : index + 1 ≠ 0 := Nat.succ_ne_zero index
  simp [propertyKey, natToString, hne, String.data_append]

/-- If two lists of digit characters followed by a non-digit separator agree,
the digit blocks and the tails agree. -/
lemma digit_block_sep {d₁ d₂ r₁ r₂ : List Char}
    (h₁ : ∀ c ∈ d₁, isAsciiDigit c = true) (h₂ : ∀ c ∈ d₂, isAsciiDigit c = true)
    (h : d₁ ++ ':' :: r₁ = d₂ ++ ':' :: r₂) : d₁ = d₂ ∧ r₁ = r₂ := by
  induction d₁ generalizing d₂ with
  | nil =>
    cases d₂ with
    | nil => simpa using h
    | cons b bs =>
      exfalso
      simp only [List.nil_append, List.cons_append, List.cons.injEq] at h
      have hb := h₂ b (List.mem_cons_self b bs)
      rw [← h.1] at hb
      simp [isAsciiDigit] at hb
  | cons a as ih =>
    cases d₂ with
    | nil =>
      exfalso
      simp only [List.nil_append, List.cons_append, List.cons.injEq] at h
      have ha := h₁ a (List.mem_cons_self a as)
      rw [h.1] at ha
      simp [isAsciiDigit] at ha
    | cons b bs =>
      simp only [List.cons_append, List.cons.injEq] at h
      obtain ⟨rfl, htail⟩ := h
      have has : ∀ c ∈ as, isAsciiDigit c = true := fun c hc => h₁ c (List.mem_cons_of_mem _ hc)
      have hbs : ∀ c ∈ bs, isAsciiDigit c = true := fun c hc => h₂ c (List.mem_cons_of_mem _ hc)
      obtain ⟨hd, hr⟩ := ih has hbs htail
      exact ⟨by rw [hd], hr⟩

/-- Two schema keys agree only when index and text agree. -/
lemma propertyKey_injective {i j : Nat} {t u : String}
    (h : propertyKey i t = propertyKey j u) : i = j ∧ t = u := by
  have hd : (propertyKey i t).data = (propertyKey j u).data := by rw [h]
  rw [propertyKey_data, propertyKey_data] at hd
  simp only [List.cons.injEq, true_and] at hd
  have hdig₁ : ∀ c ∈ (revDigits (i + 1)).reverse, isAsciiDigit c = true := by
    intro c hc
    exact revDigits_digits (List.mem_reverse.mp hc)
  have hdig₂ : ∀ c ∈ (revDigits (j + 1)).reverse, isAsciiDigit c = true := by
    intro c hc
    exact revDigits_digits (List.mem_reverse.mp hc)
  obtain ⟨hds, hrest⟩ := digit_block_sep hdig₁ hdig₂ hd
  have hij : i = j := by
    have := revDigits_injective (List.reverse_injective hds)
    omega
  refine ⟨hij, ?_⟩
  simp only [List.cons.injEq, true_and] at hrest
  cases t; cases u; simp_all

/-- The reserved-key test of `getNotionDatabaseSchema`:
`name === 'Response ID' || name === 'Submitted At' || name === 'Email'`. -/
def isReservedKey (name : String) : Bool :=
  name = "Response ID" || name = "Submitted At" || name = "Email"

/-- A generated question key is never one of the three reserved keys
(it always starts with `'Q'`). -/
lemma isReservedKey_propertyKey (i : Nat) (t : String) :
    isReservedKey (propertyKey i t) = false := by
  have hd := propertyKey_data i t
  simp only [isReservedKey, Bool.or_eq_false_iff, decide_eq_false_iff_not]
  refine ⟨⟨?_, ?_⟩, ?_⟩ <;>
    · intro h
      rw [h] at hd
      simp at hd

/-! ### Notion property schema model -/

/-- One entry of a `select` / `multi_select` options list:
`{ name: opt, color: getRandomNotionColor() }`. -/
structure SelectOption where
  name : String
  color : String
  deriving DecidableEq, Repr

/-- A Notion database property descriptor, as built by
`createNotionSurveyDatabase` / `questionToNotionProperty` (discriminated by
its `type` tag). -/
inductive NotionProperty where
  | title
  | created_time
  | email
  | rich_text
  | select (options : List SelectOption)
  | multi_select (options : List SelectOption)
  | number
  | date
  deriving DecidableEq, Repr

/-- The palette of `getRandomNotionColor`. -/
def notionColors : List String :=
  ["gray", "brown", "orange", "yellow", "green", "blue", "purple", "pink", "red"]

/-- `getRandomNotionColor`: `colors[Math.floor(Math.random() * colors.length)]`.
The random draw is modelled by the explicit parameter `r`
(`Math.floor(Math.random() * 9)` yields a value in `0..8`). -/
def getRandomNotionColor (r : Nat) : String :=
  notionColors.getD (r % notionColors.length) "gray"

/-- `(question.options || []).map(opt => ({name: opt, color: getRandomNotionColor()}))`;
`r k` is the random draw used for the `k`-th option. -/
def assignColors (r : Nat → Nat) (k : Nat) : List String → List SelectOption
  | [] => []
  | o :: os => ⟨o, getRandomNotionColor (r k)⟩ :: assignColors r (k + 1) os

lemma assignColors_names (r : Nat → Nat) (os : List String) :
    ∀ k, (assignColors r k os).map SelectOption.name = os := by
  induction os with
  | nil => intro k; rfl
  | cons o os ih => intro k; simp [assignColors, ih]

/-- `questionToNotionProperty` of `notionService.ts`; `r` supplies the random
colour draws for the options of this question. -/
def questionToNotionProperty (r : Nat → Nat) (q : Question) : NotionProperty :=
  match q.type with
  | .TEXT => .rich_text
  | .PARAGRAPH_TEXT => .rich_text
  | .TIME => .rich_text
  | .MULTIPLE_CHOICE => .select (assignColors r 0 (q.options.getD []))
  | .CHECKBOX => .multi_select (assignColors r 0 (q.options.getD []))
  | .SCALE => .number
  | .DATE => .date

/-- JavaScript object property assignment `o[k] = v`: overwrite in place when
the key exists, append otherwise (string-keyed insertion order). -/
def objSet {α : Type} (o : List (String × α)) (k : String) (v : α) : List (String × α) :=
  if o.any (fun kv => kv.1 = k) then
    o.map (fun kv => if kv.1 = k then (k, v) else kv)
  else
    o ++ [(k, v)]

lemma objSet_of_not_mem {α : Type} {o : List (String × α)} {k : String} (v : α)
    (h : k ∉ o.map Prod.fst) : objSet o k v = o ++ [(k, v)] := by
  have : o.any (fun kv => kv.1 = k) = false := by
    simp only [List.any_eq_false, decide_eq_true_eq]
    intro kv hkv hk
    exact h (by rw [← hk]; exact List.mem_map_of_mem Prod.fst hkv)
  simp [objSet, this]

/-- The three fixed properties `createNotionSurveyDatabase` starts from. -/
def reservedProperties : List (String × NotionProperty) :=
  [("Response ID", .title), ("Submitted At", .created_time), ("Email", .email)]

/-- The `questions.forEach((question, index) => { properties[propertyName] = ... })`
loop, starting at index `k`; `r i` supplies the colour draws of question `i`. -/
def addQuestionProperties (r : Nat → Nat → Nat) :
    Nat → List Question → List (String × NotionProperty) → List (String × NotionProperty)
  | _, [], o => o
  | k, q :: qs, o =>
      addQuestionProperties r (k + 1) qs
        (objSet o (propertyKey k q.questionText) (questionToNotionProperty (r k) q))

/-- The properties object built by `createNotionSurveyDatabase` (the pure part
of schema creation: three reserved properties, then one per question). -/
def createDatabaseProperties (r : Nat → Nat → Nat) (qs : List Question) :
    List (String × NotionProperty) :=
  addQuestionProperties r 0 qs reservedProperties

/-- The per-question entries alone, in order, starting at index `k`. -/
def questionProperties (r : Nat → Nat → Nat) : Nat → List Question → List (String × NotionProperty)
  | _, [] => []
  | k, q :: qs =>
      (propertyKey k q.questionText, questionToNotionProperty (r k) q)
        :: questionProperties r (k + 1) qs

lemma questionProperties_keys (r : Nat → Nat → Nat) :
    ∀ (qs : List Question) (k : Nat) (key : String),
      key ∈ (questionProperties r k qs).map Prod.fst →
        ∃ j t, k ≤ j ∧ key = propertyKey j t := by
  intro qs
  induction qs with
  | nil => intro k key h; simp [questionProperties] at h
  | cons q qs ih =>
    intro k key h
    simp only [questionProperties, List.map_cons, List.mem_cons] at h
    rcases h with rfl | h
    · exact ⟨k, q.questionText, Nat.le_refl k, rfl⟩
    · obtain ⟨j, t, hj, ht⟩ := ih (k + 1) key h
      exact ⟨j, t, by omega, ht⟩

/-- The assignment loop only ever appends fresh keys, so the object equals the
reserved block followed by the per-question entries. -/
lemma addQuestionProperties_eq (r : Nat → Nat → Nat) :
    ∀ (qs : List Question) (k : Nat) (o : List (String × NotionProperty)),
      (∀ j t, k ≤ j → propertyKey j t ∉ o.map Prod.fst) →
      addQuestionProperties r k qs o = o ++ questionProperties r k qs := by
  intro qs
  induction qs with
  | nil => intro k o _; simp [addQuestionProperties, questionProperties]
  | cons q qs ih =>
    intro k o hfresh
    have hkey : propertyKey k q.questionText ∉ o.map Prod.fst :=
      hfresh k q.questionText (Nat.le_refl k)
    rw [addQuestionProperties, objSet_of_not_mem _ hkey, ih (k + 1), questionProperties]
    · simp
    · intro j t hj hmem
      simp only [List.map_append, List.mem_append] at hmem
      rcases hmem with hmem | hmem
      · exact hfresh j t (by omega) hmem
      · simp only [List.map_cons, List.map_nil, List.mem_singleton] at hmem
        have := propertyKey_injective hmem.symm
        omega

lemma reserved_fresh (j : Nat) (t : String) :
    propertyKey j t ∉ reservedProperties.map Prod.fst := by
  intro h
  simp only [reservedProperties, List.map_cons, List.map_nil, List.mem_cons,
    List.not_mem_nil, or_false] at h
  have := isReservedKey_propertyKey j t
  rcases h with h | h | h <;> simp [isReservedKey, h] at this

/-- Schema creation, explicitly: the three reserved entries followed by one
entry per question, keyed from index `0`. -/
lemma createDatabaseProperties_eq (r : Nat → Nat → Nat) (qs : List Question) :
    createDatabaseProperties r qs = reservedProperties ++ questionProperties r 0 qs :=
  addQuestionProperties_eq r qs 0 reservedProperties (fun j t _ => reserved_fresh j t)

lemma questionProperties_keys_nodup (r : Nat → Nat → Nat) :
    ∀ (qs : List Question) (k : Nat), ((questionProperties r k qs).map Prod.fst).Nodup := by
  intro qs
  induction qs with
  | nil => intro k; simp [questionProperties]
  | cons q qs ih =>
    intro k
    simp only [questionProperties, List.map_cons, List.nodup_cons]
    refine ⟨fun hmem => ?_, ih (k + 1)⟩
    obtain ⟨j, t, hj, ht⟩ := questionProperties_keys r qs (k + 1) _ hmem
    have := propertyKey_injective ht
    omega

lemma questionProperties_length (r : Nat → Nat → Nat) :
    ∀ (qs : List Question) (k : Nat), (questionProperties r k qs).length = qs.length := by
  intro qs
  induction qs with
  | nil => intro k; rfl
  | cons q qs ih => intro k; simp [questionProperties, ih]

/-! ### Schema reversal (`getNotionDatabaseSchema`)

The property name is matched against the JavaScript regex `^Q\d+: (.+)$`
(`name.match(/^Q\d+: (.+)$/)`); on a match the captured group becomes the
question text, otherwise the whole name does.  The regex matches exactly
when the name is `'Q'`, a non-empty digit run, `": "`, and a non-empty tail
free of line terminators (`.` does not match `\n`, `\r`, ` `,
` `); the capture is that tail. -/

/-- A JavaScript regex line terminator (not matched by `.`). -/
def isLineTerminator (c : Char) : Bool :=
  c.toNat = 10 || c.toNat = 13 || c.toNat = 0x2028 || c.toNat = 0x2029

/-- Executable matcher for `^Q\d+: (.+)$`, returning the captured group. -/
def matchQKey (s : List Char) : Option (List Char) :=
  match s with
  | [] => none
  | c :: rest =>
    if c = 'Q' then
      if (rest.takeWhile isAsciiDigit).isEmpty then none
      else
        match rest.dropWhile isAsciiDigit with
        | c₁ :: c₂ :: t =>
            if c₁ = ':' ∧ c₂ = ' ' ∧ t ≠ [] ∧ ¬(t.any isLineTerminator = true) then some t
            else none
        | _ => none
    else none

/-- Declarative reading of the regex `^Q\d+: (.+)$` matching `name` with
captured group `t`. -/
def QKeySpec (name t : String) : Prop :=
  ∃ ds : List Char, ds ≠ [] ∧ (∀ c ∈ ds, isAsciiDigit c = true) ∧
    name.data = 'Q' :: (ds ++ ':' :: ' ' :: t.data) ∧
    t.data ≠ [] ∧ ∀ c ∈ t.data, isLineTerminator c = false

lemma takeWhile_digit_block {ds r : List Char} (hdig : ∀ c ∈ ds, isAsciiDigit c = true) :
    (ds ++ ':' :: r).takeWhile isAsciiDigit = ds ∧
      (ds ++ ':' :: r).dropWhile isAsciiDigit = ':' :: r := by
  induction ds with
  | nil => simp [List.takeWhile_cons, List.dropWhile_cons, isAsciiDigit]
  | cons d ds ih =>
    have hd : isAsciiDigit d = true := hdig d (List.mem_cons_self d ds)
    have hds : ∀ c ∈ ds, isAsciiDigit c = true := fun c hc => hdig c (List.mem_cons_of_mem _ hc)
    obtain ⟨ht, hdp⟩ := ih hds
    simp [List.takeWhile_cons, List.dropWhile_cons, hd, ht, hdp]

/-- The executable matcher agrees with the declarative regex reading. -/
lemma matchQKey_eq_some_iff {s t : List Char} :
    matchQKey s = some t ↔
      ∃ ds : List Char, ds ≠ [] ∧ (∀ c ∈ ds, isAsciiDigit c = true) ∧
        s = 'Q' :: (ds ++ ':' :: ' ' :: t) ∧ t ≠ [] ∧ ∀ c ∈ t, isLineTerminator c = false := by
  constructor
  · intro h
    rcases s with _ | ⟨c, rest⟩
    · simp [matchQKey] at h
    · rw [matchQKey] at h
      by_cases hc : c = 'Q'
      case neg => rw [if_neg hc] at h; simp at h
      rw [if_pos hc] at h
      by_cases hds : (rest.takeWhile isAsciiDigit).isEmpty = true
      case pos => rw [if_pos hds] at h; simp at h
      rw [if_neg hds] at h
      rcases hdrop : List.dropWhile isAsciiDigit rest with _ | ⟨c₁, _ | ⟨c₂, tl⟩⟩
      · rw [hdrop] at h; simp at h
      · rw [hdrop] at h; simp at h
      · rw [hdrop] at h
        dsimp only at h
        split_ifs at h with hcond
        · obtain ⟨hc₁, hc₂, htl, hterm⟩ := hcond
          have htt : tl = t := by simpa using h
          subst htt; subst hc₁; subst hc₂; subst hc
          refine ⟨rest.takeWhile isAsciiDigit, ?_, ?_, ?_, htl, ?_⟩
          · simpa [List.isEmpty_iff] using hds
          · intro c hcm
            exact List.mem_takeWhile_imp hcm
          · conv_lhs => rw [← List.takeWhile_append_dropWhile (p := isAsciiDigit) (l := rest), hdrop]
          · intro c hcmem
            by_contra hcterm
            have : tl.any isLineTerminator = true :=
              List.any_eq_true.mpr ⟨c, hcmem, by simpa using hcterm⟩
            exact hterm this
  · rintro ⟨ds, hne, hdig, rfl, htne, hterm⟩
    obtain ⟨htake, hdrop⟩ := takeWhile_digit_block (r := ' ' :: t) hdig
    rw [matchQKey, if_pos rfl, htake, hdrop]
    have hterm' : t.any isLineTerminator = false := by
      simp only [List.any_eq_false]
      intro c hc
      simp [hterm c hc]
    simp [List.isEmpty_iff, hne, htne, hterm']

/-- `questionMatch ? questionMatch[1] : name` of `getNotionDatabaseSchema`. -/
def parseQuestionText (name : String) : String :=
  match matchQKey name.data with
  | some t => ⟨t⟩
  | none => name

lemma parseQuestionText_of_spec {name t : String} (h : QKeySpec name t) :
    parseQuestionText name = t := by
  obtain ⟨ds, hne, hdig, hdata, htne, hterm⟩ := h
  have : matchQKey name.data = some t.data :=
    matchQKey_eq_some_iff.mpr ⟨ds, hne, hdig, hdata, htne, hterm⟩
  rw [parseQuestionText, this]

lemma parseQuestionText_of_no_spec {name : String} (h : ∀ t, ¬QKeySpec name t) :
    parseQuestionText name = name := by
  rcases hm : matchQKey name.data with _ | t'
  · rw [parseQuestionText, hm]
  · exfalso
    obtain ⟨ds, hne, hdig, hdata, htne, hterm⟩ := matchQKey_eq_some_iff.mp hm
    exact h ⟨t'⟩ ⟨ds, hne, hdig, hdata, htne, hterm⟩

/-- The `switch (prop.type)` of `getNotionDatabaseSchema`, together with the
name parsing; `required` is hard-coded `false` ("We can't determine this from
Notion schema"). -/
def propertyToQuestion (name : String) (p : NotionProperty) : Question :=
  let text := parseQuestionText name
  match p with
  | .rich_text => ⟨text, .TEXT, some [], false⟩
  | .select opts => ⟨text, .MULTIPLE_CHOICE, some (opts.map SelectOption.name), false⟩
  | .multi_select opts => ⟨text, .CHECKBOX, some (opts.map SelectOption.name), false⟩
  | .number => ⟨text, .SCALE, some [], false⟩
  | .date => ⟨text, .DATE, some [], false⟩
  | .title => ⟨text, .TEXT, some [], false⟩
  | .created_time => ⟨text, .TEXT, some [], false⟩
  | .email => ⟨text, .TEXT, some [], false⟩

/-- `getNotionDatabaseSchema`'s conversion of the fetched properties object
back to `Question[]`: skip the three reserved keys, convert the rest. -/
def getDatabaseSchemaQuestions (props : List (String × NotionProperty)) : List Question :=
  props.filterMap fun kv =>
    if isReservedKey kv.1 then none else some (propertyToQuestion kv.1 kv.2)

/-! ### Response encoding (`submitNotionResponse`)

`responses: Record<string, any>` carries duck-typed JavaScript values; we
model them as a tagged variant.  `Date.now()` and `new Date().toISOString()`
are passed in as the explicit parameters `nowMs` / `nowIso`. -/

/-- A JavaScript answer value as dispatched by `submitNotionResponse`
(`typeof value === 'string'`, `typeof value === 'number'`,
`Array.isArray(value)`, `value instanceof Date`, anything else). -/
inductive JSValue where
  | str (s : String)
  | num (n : Int)
  | arr (elems : List JSValue)
  | date (iso : String)
  | bool (b : Bool)
  | null
  | undefined
  | obj

/-- A Notion page-property value as built by `submitNotionResponse`. -/
inductive NotionValue where
  | titleValue (content : String)
  | richText (content : String)
  | number (n : Int)
  | multiSelect (names : List JSValue)
  | dateStart (start : String)

/-- The per-entry dispatch of `submitNotionResponse`: strings to rich text,
numbers to numbers, arrays to multi-select (`value.map(v => ({name: v}))`,
with the raw elements as names), `Date`s to date starts; anything else is
skipped (no `else` branch in the source). -/
def encodeResponseValue : JSValue → Option NotionValue
  | .str s => some (.richText s)
  | .num n => some (.number n)
  | .arr es => some (.multiSelect es)
  | .date iso => some (.dateStart iso)
  | .bool _ => none
  | .null => none
  | .undefined => none
  | .obj => none

/-- The properties object built by `submitNotionResponse`: the generated
`Response ID` (`` `Response-${Date.now()}` ``) and `Submitted At`
(`new Date().toISOString()`), then one assignment per response entry. -/
def submitProperties (nowMs : Nat) (nowIso : String)
    (responses : List (String × JSValue)) : List (String × NotionValue) :=
  responses.foldl
    (fun o kv =>
      match encodeResponseValue kv.2 with
      | some v => objSet o kv.1 v
      | none => o)
    [("Response ID", .titleValue ("Response-" ++ natToString nowMs)),
     ("Submitted At", .dateStart nowIso)]

/-- The value class the specification names for `encode`: a string, a number,
an array of strings, or a `Date`.  (Stated from the spec's words, to compare
with the source's dispatch.) -/
def specSupportedValue : JSValue → Bool
  | .str _ => true
  | .num _ => true
  | .arr es => es.all fun e => match e with | .str _ => true | _ => false
  | .date _ => true
  | _ => false

lemma objSet_keys_subset {α : Type} {o : List (String × α)} {k k' : String} (v : α)
    (hk : k ∉ o.map Prod.fst) (hne : k ≠ k') : k ∉ (objSet o k' v).map Prod.fst := by
  intro hmem
  rw [objSet] at hmem
  split_ifs at hmem with hany
  · simp only [List.map_map, List.mem_map, Function.comp] at hmem
    obtain ⟨kv, hkv, hkeq⟩ := hmem
    by_cases hkvk : kv.1 = k'
    · rw [if_pos hkvk] at hkeq
      exact hne hkeq.symm
    · rw [if_neg hkvk] at hkeq
      exact hk (by rw [← hkeq]; exact List.mem_map_of_mem Prod.fst hkv)
  · simp only [List.map_append, List.mem_append, List.map_cons, List.map_nil,
      List.mem_cons, List.not_mem_nil, or_false] at hmem
    rcases hmem with hmem | hmem
    · exact hk hmem
    · exact hne hmem

/-! ### MetadataStore (`storageService.ts`) and email history
(`emailHistoryService.ts`)

`localStorage` is modelled per key as an `Option String`; `JSON.parse`
failure (the `catch` branch) is modelled by a parse function returning
`none`.  Read operations return the result together with the stored state
they leave behind. -/

/-- `FormMetadata` interface of `types.ts`. -/
structure FormMetadata where
  id : String
  title : String
  questionCount : Nat
  createdAt : String
  responseData : Option String := none
  analysisResult : Option String := none
  editUrl : Option String := none
  publishedUrl : Option String := none
  deriving DecidableEq, Repr

/-- `EmailHistoryItem` interface of `emailHistoryService.ts`. -/
structure EmailHistoryItem where
  email : String
  lastUsed : String
  frequency : Nat
  deriving DecidableEq, Repr

/-- `forms.sort((a, b) => new Date(b.createdAt).getTime() - new Date(a.createdAt).getTime())`:
sort most-recent-first by the parsed timestamp; `dateTime` models
`s => new Date(s).getTime()`. -/
def sortFormsByCreatedAtDesc (dateTime : String → Int) (l : List FormMetadata) :
    List FormMetadata :=
  l.insertionSort fun a b => dateTime b.createdAt ≤ dateTime a.createdAt

/-- `getFormsMetadata`, acting on the raw stored string: missing data yields
`[]`; parse failure (the `catch`) yields `[]` and removes the stored item. -/
def getFormsMetadataSt (dateTime : String → Int)
    (parse : String → Option (List FormMetadata)) (stored : Option String) :
    List FormMetadata × Option String :=
  match stored with
  | none => ([], none)
  | some s =>
    match parse s with
    | some forms => (sortFormsByCreatedAtDesc dateTime forms, some s)
    | none => ([], none)

/-- `getEmailHistory`: missing data yields `[]`; parse failure (the `catch`)
yields `[]` but leaves the stored item in place (no `removeItem`). -/
def getEmailHistorySt (parse : String → Option (List EmailHistoryItem))
    (stored : Option String) : List EmailHistoryItem × Option String :=
  match stored with
  | none => ([], stored)
  | some s =>
    match parse s with
    | some history => (history, stored)
    | none => ([], stored)

/-- `saveFormMetadata` at the level of the stored entry list:
`[newForm, ...getFormsMetadata().filter(f => f.id !== newForm.id)]`. -/
def saveFormMetadataList (dateTime : String → Int) (newForm : FormMetadata)
    (stored : List FormMetadata) : List FormMetadata :=
  newForm :: (sortFormsByCreatedAtDesc dateTime stored).filter fun f => f.id != newForm.id

/-- `getFormsMetadata` at the level of the stored entry list. -/
def getFormsMetadataList (dateTime : String → Int) (stored : List FormMetadata) :
    List FormMetadata :=
  sortFormsByCreatedAtDesc dateTime stored

/-! ### Helper lemmas for the round-trip claims -/

lemma propertyToQuestion_isRequired (name : String) (p : NotionProperty) :
    (propertyToQuestion name p).isRequired = false := by
  cases p <;> rfl

lemma propertyToQuestion_text (name : String) (p : NotionProperty) :
    (propertyToQuestion name p).questionText = parseQuestionText name := by
  cases p <;> rfl

/-- Round trip of a single question: the three reserved entries are skipped
and the one question entry is converted back. -/
lemma roundtrip_single (r : Nat → Nat → Nat) (q : Question) :
    getDatabaseSchemaQuestions (createDatabaseProperties r [q]) =
      [propertyToQuestion (propertyKey 0 q.questionText) (questionToNotionProperty (r 0) q)] := by
  rw [createDatabaseProperties_eq, getDatabaseSchemaQuestions, List.filterMap_append]
  have h1 : (reservedProperties.filterMap fun kv =>
      if isReservedKey kv.1 then none else some (propertyToQuestion kv.1 kv.2)) = [] := by
    decide
  rw [h1]
  simp [questionProperties, List.filterMap_cons, isReservedKey_propertyKey]

/-! ### Claim theorems -/

/-- C1 (code_bug evidence): schema creation (`createNotionSurveyDatabase`)
builds the key from the raw question text, while response encoding
(`sanitizePropertyName` in the form components) replaces commas with
semicolons, so on the spec's own example the two keys disagree — responses
to a comma-containing question target a property the database does not have.
-/
theorem c1_schema_key_unsanitized :
    propertyKey 0 "Do you like A, B, or C?" = "Q1: Do you like A, B, or C?" ∧
    responseKey 0 "Do you like A, B, or C?" = "Q1: Do you like A; B; or C?" ∧
    propertyKey 0 "Do you like A, B, or C?" ≠ responseKey 0 "Do you like A, B, or C?" := by
  refine ⟨?_, ?_, ?_⟩ <;> decide

/-- C2: for any question list (no grid-flattening) the created schema has
exactly `n + 3` entries — the three reserved properties plus one key per
question — and no two entries collide on key, for the fixed input order. -/
theorem c2_schema_cardinality (r : Nat → Nat → Nat) (qs : List Question) :
    (createDatabaseProperties r qs).length = qs.length + 3 ∧
      ((createDatabaseProperties r qs).map Prod.fst).Nodup := by
  rw [createDatabaseProperties_eq]
  constructor
  · rw [List.length_append, questionProperties_length]
    simp [reservedProperties]
    omega
  · rw [List.map_append, List.nodup_append]
    refine ⟨by decide, questionProperties_keys_nodup r qs 0, ?_⟩
    intro a ha hb
    obtain ⟨j, t, _, rfl⟩ := questionProperties_keys r qs 0 a hb
    have := isReservedKey_propertyKey j t
    simp only [reservedProperties, List.map_cons, List.map_nil, List.mem_cons,
      List.not_mem_nil, or_false] at ha
    rcases ha with h | h | h <;> simp [isReservedKey, h] at this

/-- C3: round-tripping a single question through schema creation and schema
reversal preserves the kind for MULTIPLE_CHOICE, CHECKBOX and DATE, and
downgrades TEXT, PARAGRAPH_TEXT and TIME to TEXT. -/
theorem c3_kind_roundtrip (r : Nat → Nat → Nat) (q : Question) :
    ((q.type = .MULTIPLE_CHOICE ∨ q.type = .CHECKBOX ∨ q.type = .DATE) →
      ∃ q', (getDatabaseSchemaQuestions (createDatabaseProperties r [q])).head? = some q' ∧
        q'.type = q.type) ∧
    ((q.type = .TEXT ∨ q.type = .PARAGRAPH_TEXT ∨ q.type = .TIME) →
      ∃ q', (getDatabaseSchemaQuestions (createDatabaseProperties r [q])).head? = some q' ∧
        q'.type = .TEXT) := by
  rw [roundtrip_single]
  constructor <;> rintro (h | h | h) <;>
    exact ⟨_, rfl, by simp [propertyToQuestion, questionToNotionProperty, h]⟩

/-- C3 witness: a concrete MULTIPLE_CHOICE question survives the round trip
with its kind intact. -/
theorem c3_kind_roundtrip_witness :
    ∃ q', (getDatabaseSchemaQuestions (createDatabaseProperties (fun _ _ => 0)
        [⟨"Pick one", .MULTIPLE_CHOICE, some ["a", "b"], true⟩])).head? = some q' ∧
      q'.type = QuestionType.MULTIPLE_CHOICE :=
  (c3_kind_roundtrip (fun _ _ => 0) ⟨"Pick one", .MULTIPLE_CHOICE, some ["a", "b"], true⟩).1
    (Or.inl rfl)

/-- C4: schema reversal always reports `required = false` — both for an
arbitrary external schema and for the round trip of a question that had
`required = true`. -/
theorem c4_required_flag_lost (props : List (String × NotionProperty))
    (r : Nat → Nat → Nat) (q : Question) :
    (∀ q' ∈ getDatabaseSchemaQuestions props, q'.isRequired = false) ∧
    (q.isRequired = true →
      ∀ q' ∈ getDatabaseSchemaQuestions (createDatabaseProperties r [q]),
        q'.isRequired = false) := by
  have hall : ∀ (ps : List (String × NotionProperty)),
      ∀ q' ∈ getDatabaseSchemaQuestions ps, q'.isRequired = false := by
    intro ps q' hmem
    simp only [getDatabaseSchemaQuestions, List.mem_filterMap] at hmem
    obtain ⟨kv, _, hif⟩ := hmem
    split_ifs at hif with hres
    rw [← Option.some.inj hif]
    exact propertyToQuestion_isRequired kv.1 kv.2
  exact ⟨hall props, fun _ => hall _⟩

/-- C4 witness: the round trip of a concrete required TEXT question yields
`required = false`. -/
theorem c4_required_flag_lost_witness :
    (propertyToQuestion (propertyKey 0 "Name?")
      (questionToNotionProperty (fun _ => 0) ⟨"Name?", .TEXT, none, true⟩)).isRequired = false :=
  (c4_required_flag_lost [] (fun _ _ => 0) ⟨"Name?", .TEXT, none, true⟩).2 rfl _
    (by rw [roundtrip_single]; exact List.mem_singleton.mpr rfl)

/-- C7: schema reversal skips the three reserved keys, converts every other
entry, takes the regex capture `^Q\d+: (.+)$` as the question text when the
key matches, and uses the whole key as the text when it does not — never an
error. -/
theorem c7_schema_reversal_naming (props : List (String × NotionProperty))
    (name : String) (p : NotionProperty) (t : String) :
    (isReservedKey name = true →
      getDatabaseSchemaQuestions ((name, p) :: props) = getDatabaseSchemaQuestions props) ∧
    (isReservedKey name = false →
      getDatabaseSchemaQuestions ((name, p) :: props) =
        propertyToQuestion name p :: getDatabaseSchemaQuestions props) ∧
    (QKeySpec name t → (propertyToQuestion name p).questionText = t) ∧
    ((∀ u, ¬QKeySpec name u) → (propertyToQuestion name p).questionText = name) := by
  refine ⟨?_, ?_, ?_, ?_⟩
  · intro h
    simp [getDatabaseSchemaQuestions, List.filterMap_cons, h]
  · intro h
    simp [getDatabaseSchemaQuestions, List.filterMap_cons, h]
  · intro h
    rw [propertyToQuestion_text]
    exact parseQuestionText_of_spec h
  · intro h
    rw [propertyToQuestion_text]
    exact parseQuestionText_of_no_spec h

/-- C7 witness: the key `"Q12: Hello"` matches the pattern and yields the
captured text `"Hello"`. -/
theorem c7_schema_reversal_naming_witness :
    (propertyToQuestion "Q12: Hello" NotionProperty.number).questionText = "Hello" :=
  (c7_schema_reversal_naming [] "Q12: Hello" NotionProperty.number "Hello").2.2.1
    ⟨['1', '2'], by decide, by decide, by decide, by decide, by decide⟩

/-- C10: round-tripping a single MULTIPLE_CHOICE or CHECKBOX question
preserves the option labels exactly and in order (only the colours are
discarded); any other kind comes back with an empty options list. -/
theorem c10_options_roundtrip (r : Nat → Nat → Nat) (q : Question) :
    ((q.type = .MULTIPLE_CHOICE ∨ q.type = .CHECKBOX) →
      ∃ q', getDatabaseSchemaQuestions (createDatabaseProperties r [q]) = [q'] ∧
        q'.options = some (q.options.getD [])) ∧
    ((q.type ≠ .MULTIPLE_CHOICE ∧ q.type ≠ .CHECKBOX) →
      ∃ q', getDatabaseSchemaQuestions (createDatabaseProperties r [q]) = [q'] ∧
        q'.options = some []) := by
  rw [roundtrip_single]
  constructor
  · rintro (h | h) <;>
      exact ⟨_, rfl, by
        simp [propertyToQuestion, questionToNotionProperty, h, assignColors_names]⟩
  · rintro ⟨h₁, h₂⟩
    refine ⟨_, rfl, ?_⟩
    cases htype : q.type <;>
      simp [propertyToQuestion, questionToNotionProperty, htype] <;>
      [exact absurd htype h₁; exact absurd htype h₂]

/-- C10 witness: a concrete CHECKBOX question keeps its labels `["a", "b"]`
in order; a concrete SCALE question comes back with empty options. -/
theorem c10_options_roundtrip_witness :
    ∃ q', getDatabaseSchemaQuestions (createDatabaseProperties (fun _ _ => 3)
        [⟨"Pick all", .CHECKBOX, some ["a", "b"], false⟩]) = [q'] ∧
      q'.options = some ["a", "b"] :=
  (c10_options_roundtrip (fun _ _ => 3) ⟨"Pick all", .CHECKBOX, some ["a", "b"], false⟩).1
    (Or.inr rfl)

/-- C5 counterexample: an array of numbers is not an "array of strings", yet
`submitNotionResponse` encodes it (the dispatch only tests `Array.isArray`),
so the key is present in the payload. -/
theorem c5_unsupported_drop_counterexample :
    specSupportedValue (.arr [.num 1]) = false ∧
      "k" ∈ (submitProperties 0 "" [("k", .arr [.num 1])]).map Prod.fst := by
  constructor
  · rfl
  · have : (submitProperties 0 "" [("k", .arr [.num 1])]).map Prod.fst =
        ["Response ID", "Submitted At", "k"] := rfl
    rw [this]
    decide

lemma foldl_encode_key_absent {k : String} :
    ∀ (resps : List (String × JSValue)) (o : List (String × NotionValue)),
      (∀ v, (k, v) ∈ resps → encodeResponseValue v = none) →
      k ∉ o.map Prod.fst →
      k ∉ (resps.foldl
          (fun o kv =>
            match encodeResponseValue kv.2 with
            | some v => objSet o kv.1 v
            | none => o) o).map Prod.fst := by
  intro resps
  induction resps with
  | nil => intro o _ ho; simpa using ho
  | cons kv resps ih =>
    intro o hv ho
    rw [List.foldl_cons]
    have hv' : ∀ v, (k, v) ∈ resps → encodeResponseValue v = none :=
      fun v h => hv v (List.mem_cons_of_mem _ h)
    rcases henc : encodeResponseValue kv.2 with _ | v
    · simp only [henc]
      exact ih _ hv' ho
    · have hkne : k ≠ kv.1 := by
        rintro rfl
        have hmem : (kv.1, kv.2) ∈ kv :: resps := by simp
        have hnone := hv kv.2 hmem
        rw [henc] at hnone
        simp at hnone
      simp only [henc]
      exact ih _ hv' (objSet_keys_subset v ho hkne)

/-- C5 (amended): an entry whose value fails every branch of the dispatch —
not a string, number, array (of any elements), or `Date` — is silently
omitted: its key is absent from the payload (barring the two generated keys,
which exist independently), and encoding never fails. -/
theorem c5_unsupported_values_dropped (nowMs : Nat) (nowIso : String)
    (responses : List (String × JSValue)) (k : String)
    (hk₁ : k ≠ "Response ID") (hk₂ : k ≠ "Submitted At")
    (hv : ∀ v, (k, v) ∈ responses → encodeResponseValue v = none) :
    k ∉ (submitProperties nowMs nowIso responses).map Prod.fst := by
  rw [submitProperties]
  exact foldl_encode_key_absent responses _ hv (by simp [hk₁, hk₂])

/-- C5 witness: a plain-object answer under key `"k"` leaves `"k"` out of the
payload. -/
theorem c5_unsupported_values_dropped_witness :
    "k" ∉ (submitProperties 0 "" [("k", JSValue.obj)]).map Prod.fst :=
  c5_unsupported_values_dropped 0 "" [("k", JSValue.obj)] "k" (by decide) (by decide)
    (by rintro v hvmem; simp only [List.mem_singleton, Prod.mk.injEq] at hvmem; rw [hvmem.2]; rfl)

/-- C6 counterexample: a response entry under the reserved key
`"Response ID"` overwrites the freshly generated identifier, so the payload
does not contain the generated entry for every input. -/
theorem c6_generated_id_counterexample :
    ("Response ID", NotionValue.titleValue ("Response-" ++ natToString 5)) ∉
      submitProperties 5 "now" [("Response ID", JSValue.str "x")] := by
  intro hmem
  have hpay : submitProperties 5 "now" [("Response ID", JSValue.str "x")] =
      [("Response ID", NotionValue.richText "x"),
       ("Submitted At", NotionValue.dateStart "now")] := rfl
  rw [hpay] at hmem
  rcases List.mem_cons.mp hmem with h | hmem₂
  · exact NotionValue.noConfusion (congrArg Prod.snd h)
  · rcases List.mem_cons.mp hmem₂ with h | h
    · exact absurd (congrArg Prod.fst h) (by decide)
    · simp at h

lemma foldl_encode_append :
    ∀ (resps : List (String × JSValue)) (o : List (String × NotionValue)),
      (∀ kv ∈ resps, kv.1 ∉ o.map Prod.fst) →
      (resps.map Prod.fst).Nodup →
      resps.foldl
          (fun o kv =>
            match encodeResponseValue kv.2 with
            | some v => objSet o kv.1 v
            | none => o) o =
        o ++ resps.filterMap (fun kv => (encodeResponseValue kv.2).map fun v => (kv.1, v)) := by
  intro resps
  induction resps with
  | nil => intro o _ _; simp
  | cons kv resps ih =>
    intro o hdisj hnd
    rw [List.foldl_cons, List.filterMap_cons]
    have hdisj' : ∀ kv' ∈ resps, kv'.1 ∉ o.map Prod.fst :=
      fun kv' h => hdisj kv' (List.mem_cons_of_mem _ h)
    simp only [List.map_cons, List.nodup_cons] at hnd
    rcases henc : encodeResponseValue kv.2 with _ | v
    · simp only [henc, Option.map_none']
      exact ih o hdisj' hnd.2
    · simp only [henc, Option.map_some']
      rw [objSet_of_not_mem _ (hdisj kv (List.mem_cons_self kv resps))]
      rw [ih (o ++ [(kv.1, v)]) ?_ hnd.2]
      · rw [List.append_assoc]
        rfl
      · intro kv' hkv' hmem
        simp only [List.map_append, List.mem_append, List.map_cons, List.map_nil,
          List.mem_cons, List.not_mem_nil, or_false] at hmem
        rcases hmem with hmem | hmem
        · exact hdisj' kv' hkv' hmem
        · exact hnd.1 (hmem ▸ List.mem_map_of_mem Prod.fst hkv')

/-- C6 (amended): whenever the response mapping does not itself use the two
generated keys, the payload is exactly the freshly generated
`Response ID` (`` `Response-${Date.now()}` ``) and `Submitted At` entries
followed by the encoded answer entries; a response entry under a generated key
would overwrite the generated value instead. -/
theorem c6_payload_contents (nowMs : Nat) (nowIso : String)
    (responses : List (String × JSValue))
    (h₁ : "Response ID" ∉ responses.map Prod.fst)
    (h₂ : "Submitted At" ∉ responses.map Prod.fst)
    (hnd : (responses.map Prod.fst).Nodup) :
    submitProperties nowMs nowIso responses =
      ("Response ID", NotionValue.titleValue ("Response-" ++ natToString nowMs)) ::
        ("Submitted At", NotionValue.dateStart nowIso) ::
          responses.filterMap (fun kv => (encodeResponseValue kv.2).map fun v => (kv.1, v)) := by
  rw [submitProperties, foldl_encode_append responses _ ?_ hnd]
  · rfl
  · intro kv hkv hmem
    simp only [List.map_cons, List.map_nil, List.mem_cons, List.not_mem_nil, or_false] at hmem
    rcases hmem with hmem | hmem
    · exact h₁ (hmem ▸ List.mem_map_of_mem Prod.fst hkv)
    · exact h₂ (hmem ▸ List.mem_map_of_mem Prod.fst hkv)

/-- C6 witness — the spec's own example: the single SCALE answer `4` yields
the generated `Response ID`, the submission timestamp, and the numeric
answer under the question key. -/
theorem c6_payload_contents_witness :
    submitProperties 5 "2024-01-01T00:00:00.000Z"
        [("Q1: How satisfied are you?", JSValue.num 4)] =
      [("Response ID", NotionValue.titleValue "Response-5"),
       ("Submitted At", NotionValue.dateStart "2024-01-01T00:00:00.000Z"),
       ("Q1: How satisfied are you?", NotionValue.number 4)] := by
  rw [c6_payload_contents 5 "2024-01-01T00:00:00.000Z" _ (by decide) (by decide) (by decide)]
  rfl

/-- C8 counterexample: on unparseable data `getEmailHistory` returns the
empty result but leaves the corrupt value in storage — its `catch` performs
no `removeItem`, so the "clear the corrupt state" half of the claim fails. -/
theorem c8_email_history_not_cleared :
    (getEmailHistorySt (fun _ => none) (some "not json")).1 = [] ∧
      (getEmailHistorySt (fun _ => none) (some "not json")).2 ≠ none :=
  ⟨rfl, fun h => Option.noConfusion h⟩

/-- C8 (amended): the reads never fail — both return `[]` on missing or
unparseable storage; `getFormsMetadata` clears the corrupt stored state
(defensive reset), while `getEmailHistory` leaves the corrupt value in
place. -/
theorem c8_defensive_reads (dateTime : String → Int)
    (parseForms : String → Option (List FormMetadata))
    (parseHistory : String → Option (List EmailHistoryItem)) (s : String)
    (hf : parseForms s = none) (he : parseHistory s = none) :
    getFormsMetadataSt dateTime parseForms none = ([], none) ∧
    getFormsMetadataSt dateTime parseForms (some s) = ([], none) ∧
    getEmailHistorySt parseHistory none = ([], none) ∧
    getEmailHistorySt parseHistory (some s) = ([], some s) := by
  refine ⟨rfl, ?_, rfl, ?_⟩
  · simp [getFormsMetadataSt, hf]
  · simp [getEmailHistorySt, he]

/-- C8 witness: with a failing parse, `getFormsMetadata` resets the stored
state while `getEmailHistory` keeps it. -/
theorem c8_defensive_reads_witness :
    getFormsMetadataSt (fun _ => 0) (fun _ => none) (some "x") = ([], none) ∧
      getEmailHistorySt (fun _ => none) (some "x") = ([], some "x") :=
  ⟨(c8_defensive_reads (fun _ => 0) (fun _ => none) (fun _ => none) "x" rfl rfl).2.1,
   (c8_defensive_reads (fun _ => 0) (fun _ => none) (fun _ => none) "x" rfl rfl).2.2.2⟩

/-! ### Metadata ordering (C9) -/

lemma sortForms_perm (dateTime : String → Int) (l : List FormMetadata) :
    List.Perm (sortFormsByCreatedAtDesc dateTime l) l :=
  List.perm_insertionSort _ l

lemma sortForms_sorted (dateTime : String → Int) (l : List FormMetadata) :
    (sortFormsByCreatedAtDesc dateTime l).Sorted
      (fun a b => dateTime b.createdAt ≤ dateTime a.createdAt) := by
  haveI : IsTotal FormMetadata (fun a b => dateTime b.createdAt ≤ dateTime a.createdAt) :=
    ⟨fun a b => le_total _ _⟩
  haveI : IsTrans FormMetadata (fun a b => dateTime b.createdAt ≤ dateTime a.createdAt) :=
    ⟨fun a b c hab hbc => le_trans hbc hab⟩
  exact List.sorted_insertionSort _ l

lemma save_perm (dateTime : String → Int) (e : FormMetadata) (st : List FormMetadata)
    (h : ∀ f ∈ st, f.id ≠ e.id) :
    List.Perm (saveFormMetadataList dateTime e st) (e :: st) := by
  rw [saveFormMetadataList]
  have hsort := sortForms_perm dateTime st
  have hfilter : ((sortFormsByCreatedAtDesc dateTime st).filter fun f => f.id != e.id) =
      sortFormsByCreatedAtDesc dateTime st := by
    rw [List.filter_eq_self]
    intro f hf
    exact bne_iff_ne.mpr (h f (hsort.mem_iff.mp hf))
  rw [hfilter]
  exact hsort.cons e

lemma foldl_save_perm (dateTime : String → Int) :
    ∀ (l st : List FormMetadata),
      ((st ++ l).map FormMetadata.id).Nodup →
      List.Perm (l.foldl (fun acc e => saveFormMetadataList dateTime e acc) st) (l ++ st) := by
  intro l
  induction l with
  | nil => intro st _; simp
  | cons e l ih =>
    intro st hnd
    rw [List.foldl_cons]
    have hids : ∀ f ∈ st, f.id ≠ e.id := by
      intro f hf heq
      rw [List.map_append] at hnd
      obtain ⟨-, -, hdisj⟩ := List.nodup_append.mp hnd
      exact hdisj (heq ▸ List.mem_map_of_mem FormMetadata.id hf)
        (by simp)
    have hsave := save_perm dateTime e st hids
    have hmid : List.Perm (saveFormMetadataList dateTime e st ++ l) (st ++ e :: l) :=
      (hsave.append_right l).trans List.perm_middle.symm
    have hnd' : ((saveFormMetadataList dateTime e st ++ l).map FormMetadata.id).Nodup :=
      (List.Perm.nodup_iff (hmid.map FormMetadata.id)).mpr hnd
    have hrec := ih (saveFormMetadataList dateTime e st) hnd'
    exact hrec.trans ((hsave.append_left l).trans List.perm_middle)

/-- A most-recent-first sorted permutation of three entries with strictly
increasing timestamps is uniquely determined. -/
lemma sorted_perm_eq_three (dateTime : String → Int) (L : List FormMetadata)
    (e₁ e₂ e₃ : FormMetadata)
    (hperm : List.Perm L [e₁, e₂, e₃])
    (hsort : L.Sorted fun a b => dateTime b.createdAt ≤ dateTime a.createdAt)
    (h₁₂ : dateTime e₁.createdAt < dateTime e₂.createdAt)
    (h₂₃ : dateTime e₂.createdAt < dateTime e₃.createdAt) :
    L = [e₃, e₂, e₁] := by
  have hlen := hperm.length_eq
  obtain ⟨x, y, z, rfl⟩ : ∃ x y z, L = [x, y, z] := by
    rcases L with _ | ⟨x, _ | ⟨y, _ | ⟨z, _ | ⟨w, L'⟩⟩⟩⟩ <;>
      first
        | exact ⟨x, y, z, rfl⟩
        | (simp only [List.length_nil, List.length_cons] at hlen; omega)
  simp only [List.sorted_cons, List.mem_cons, List.not_mem_nil, or_false,
    List.mem_singleton, List.sorted_nil, and_true, forall_eq_or_imp, forall_eq] at hsort
  obtain ⟨⟨hyx, hzx⟩, hzy⟩ := hsort
  have hx : x ∈ [e₁, e₂, e₃] := hperm.mem_iff.mp (by simp)
  have he₃ : e₃ ∈ [x, y, z] := hperm.symm.mem_iff.mp (by simp)
  simp only [List.mem_cons, List.not_mem_nil, or_false] at hx he₃
  have hmax : dateTime e₃.createdAt ≤ dateTime x.createdAt := by
    rcases he₃ with h | h | h
    · rw [h]
    · rw [h]; exact hyx
    · rw [h]; exact hzx
  have hxe₃ : x = e₃ := by
    rcases hx with h | h | h
    · rw [h] at hmax; omega
    · rw [h] at hmax; omega
    · exact h
  rw [hxe₃] at hperm ⊢
  have hstep : List.Perm ([e₁, e₂] ++ e₃ :: []) (e₃ :: ([e₁, e₂] ++ [])) := List.perm_middle
  have hyz : List.Perm [y, z] [e₁, e₂] := (List.perm_cons e₃).mp (hperm.trans hstep)
  have hy : y ∈ [e₁, e₂] := hyz.mem_iff.mp (by simp)
  simp only [List.mem_cons, List.not_mem_nil, or_false] at hy
  rcases hy with h | h
  · exfalso
    rw [h] at hyz
    have hz : z = e₂ := by simpa using List.perm_singleton.mp ((List.perm_cons e₁).mp hyz)
    rw [h, hz] at hzy
    omega
  · rw [h] at hyz
    have hswap : List.Perm [e₁, e₂] [e₂, e₁] := List.Perm.swap e₂ e₁ []
    have hz : z = e₁ := by
      simpa using List.perm_singleton.mp ((List.perm_cons e₂).mp (hyz.trans hswap))
    rw [h, hz]

/-- C9: three entries with strictly increasing `createdAt` timestamps (and
distinct ids), saved in any insertion order starting from empty storage, are
returned by `getFormsMetadata` most-recent-first. -/
theorem c9_metadata_ordering (dateTime : String → Int) (e₁ e₂ e₃ : FormMetadata)
    (h₁₂ : dateTime e₁.createdAt < dateTime e₂.createdAt)
    (h₂₃ : dateTime e₂.createdAt < dateTime e₃.createdAt)
    (hids : ([e₁, e₂, e₃].map FormMetadata.id).Nodup)
    (l : List FormMetadata) (hperm : List.Perm l [e₁, e₂, e₃]) :
    getFormsMetadataList dateTime
      (l.foldl (fun acc e => saveFormMetadataList dateTime e acc) []) = [e₃, e₂, e₁] := by
  have hndl : ((([] : List FormMetadata) ++ l).map FormMetadata.id).Nodup := by
    rw [List.nil_append]
    exact (List.Perm.nodup_iff (hperm.map FormMetadata.id)).mpr hids
  have hfold := foldl_save_perm dateTime l [] hndl
  rw [List.append_nil] at hfold
  rw [getFormsMetadataList]
  exact sorted_perm_eq_three dateTime _ e₁ e₂ e₃
    ((sortForms_perm dateTime _).trans (hfold.trans hperm))
    (sortForms_sorted dateTime _) h₁₂ h₂₃

/-- C9 witness: three concrete entries with timestamps of increasing length
saved in the order `[e₂, e₃, e₁]` come back ordered `e₃, e₂, e₁`. -/
theorem c9_metadata_ordering_witness :
    getFormsMetadataList (fun s => (s.length : Int))
      ([⟨"id2", "B", 1, "22", none, none, none, none⟩,
        ⟨"id3", "C", 1, "333", none, none, none, none⟩,
        ⟨"id1", "A", 1, "1", none, none, none, none⟩].foldl
        (fun acc e => saveFormMetadataList (fun s => (s.length : Int)) e acc) []) =
      [⟨"id3", "C", 1, "333", none, none, none, none⟩,
       ⟨"id2", "B", 1, "22", none, none, none, none⟩,
       ⟨"id1", "A", 1, "1", none, none, none, none⟩] :=
  c9_metadata_ordering (fun s => (s.length : Int))
    ⟨"id1", "A", 1, "1", none, none, none, none⟩
    ⟨"id2", "B", 1, "22", none, none, none, none⟩
    ⟨"id3", "C", 1, "333", none, none, none, none⟩
    (by decide) (by decide) (by decide) _ (by decide)

end NotionSurvey
